import Mathlib

/-!
Verification of the password-cracking detection tool's ML risk-scoring and
rule-based detection components, as a shallow embedding of the Python sources
(`ml/risk_scorer.py`, `ml/train_model.py`, `detection.py`,
`feature_engineeringD.py`).  Timestamps are modelled as exact rationals
(seconds); Python floats are modelled by exact rational arithmetic, with the
one inexact primitive (`** 0.5`) kept abstract as a function parameter.
-/

namespace PCDT

/-- One retained login-attempt tuple `(username, status, timestamp, fingerprint)`
as appended to `ip_cache[ip]['attempts']` in `RiskScorer.update_cache`. -/
structure Attempt where
  username : String
  status : String
  timestamp : ℚ
  fingerprint : String
deriving DecidableEq, Repr

/-- The per-IP entry of `RiskScorer.ip_cache` (a `defaultdict`): attempts list,
set of users, fingerprint-count dict, set of user agents, timestamp list and
the failure/success counters.  Python sets and dicts are modelled as
insertion-ordered lists (CPython semantics). -/
structure CacheData where
  attempts : List Attempt
  users : List String
  fingerprints : List (String × Nat)
  user_agents : List String
  timestamps : List ℚ
  failures : Nat
  successes : Nat
deriving DecidableEq, Repr

/-- The default value a `defaultdict` entry starts from. -/
def emptyCacheData : CacheData :=
  { attempts := [], users := [], fingerprints := [], user_agents := []
    timestamps := [], failures := 0, successes := 0 }

/-- `RiskScorer.ip_cache`, keyed by source IP. -/
def Cache : Type := String → CacheData

/-- The empty `ip_cache` (every key at its `defaultdict` default). -/
def emptyCache : Cache := fun _ => emptyCacheData

/-- Python `str.startswith`, written structurally over the character data so
that concrete instances evaluate (extensionally equal to `String.startsWith`). -/
def pyStartsWith (s p : String) : Bool := p.data.isPrefixOf s.data

/-- Python `set.add`: insert if absent (sets keep insertion order here, which
only matters for permutation-invariance statements, never for values). -/
def insertSet (x : String) (l : List String) : List String :=
  if x ∈ l then l else l ++ [x]

/-- `data['fingerprints'][fingerprint] += 1` on a `defaultdict(int)`. -/
def bumpCount (k : String) : List (String × Nat) → List (String × Nat)
  | [] => [(k, 1)]
  | (a, n) :: rest => if a = k then (a, n + 1) :: rest else (a, n) :: bumpCount k rest

/-- `RiskScorer.update_cache(ip, username, status, fingerprint, user_agent)`.
`now` stands for `datetime.utcnow()`; the eviction cutoff is `now - 1 hour`
(3600 s) and is applied to the `timestamps` and `attempts` lists on every
update.  `if user_agent:` is Python truthiness: `None` and `""` are skipped. -/
def update_cache (now : ℚ) (c : Cache) (ip username status fingerprint : String)
    (user_agent : Option String) : Cache :=
  let data := c ip
  let attempts := data.attempts ++ [⟨username, status, now, fingerprint⟩]
  let users := insertSet username data.users
  let fingerprints := bumpCount fingerprint data.fingerprints
  let timestamps := data.timestamps ++ [now]
  let user_agents :=
    match user_agent with
    | some ua => if ua = "" then data.user_agents else insertSet ua data.user_agents
    | none => data.user_agents
  let failures := if pyStartsWith status "fail" then data.failures + 1 else data.failures
  let successes := if pyStartsWith status "fail" then data.successes else data.successes + 1
  let cutoff := now - 3600
  let data' : CacheData :=
    { attempts := attempts.filter (fun a => cutoff < a.timestamp)
      users := users
      fingerprints := fingerprints
      user_agents := user_agents
      timestamps := timestamps.filter (fun t => cutoff < t)
      failures := failures
      successes := successes }
  fun ip' => if ip' = ip then data' else c ip'

/-- Python `max` over a nonempty list (`0` is never used by guarded callers). -/
def pyMax (l : List ℚ) : ℚ :=
  match l with
  | [] => 0
  | x :: xs => xs.foldl max x

/-- Python `min` over a nonempty list. -/
def pyMin (l : List ℚ) : ℚ :=
  match l with
  | [] => 0
  | x :: xs => xs.foldl min x

/-- Python `max` over a nonempty list of counters. -/
def pyMaxNat (l : List Nat) : Nat :=
  match l with
  | [] => 0
  | x :: xs => xs.foldl max x

/-- Python `sorted` on timestamps. -/
def sortQ (l : List ℚ) : List ℚ := l.insertionSort (· ≤ ·)

/-- Consecutive differences `sorted_times[i] - sorted_times[i-1]`. -/
def intervalsOf : List ℚ → List ℚ
  | a :: b :: rest => (b - a) :: intervalsOf (b :: rest)
  | _ => []

/-- `RiskScorer.extract_features(ip)` on one cache entry.  `sqrtFn` stands for
the floating-point `** 0.5` applied to the interval variance; every other
operation is exact rational arithmetic.  Returns the 8-feature row
`[failed_rate, unique_users, attempts_per_minute, time_variance, ua_diversity,
password_pattern_score, success_rate, total_attempts]`. -/
def extract_features (sqrtFn : ℚ → ℚ) (data : CacheData) : List ℚ :=
  let total_attempts := data.attempts.length
  if total_attempts = 0 then
    [0, 1, 1/10, 30, 1, 0, 1, 1]
  else
    let failed_rate : ℚ := (data.failures : ℚ) / (total_attempts : ℚ)
    let unique_users := data.users.length
    let attempts_per_minute : ℚ :=
      if 2 ≤ data.timestamps.length then
        let time_span := pyMax data.timestamps - pyMin data.timestamps
        (total_attempts : ℚ) / max (time_span / 60) (1/10)
      else 0
    let time_variance : ℚ :=
      if 3 ≤ data.timestamps.length then
        let intervals := intervalsOf (sortQ data.timestamps)
        if intervals = [] then 0
        else
          let mean_interval := intervals.sum / (intervals.length : ℚ)
          let variance := (intervals.map (fun x => (x - mean_interval) ^ 2)).sum / (intervals.length : ℚ)
          sqrtFn variance
      else 0
    let ua_diversity := data.user_agents.length
    let max_fingerprint_reuse :=
      if data.fingerprints.length = 0 then 0 else pyMaxNat (data.fingerprints.map Prod.snd)
    let password_pattern_score : ℚ :=
      if 0 < unique_users then (max_fingerprint_reuse : ℚ) / (unique_users : ℚ) else 0
    let success_rate : ℚ := (data.successes : ℚ) / (total_attempts : ℚ)
    [failed_rate, (unique_users : ℚ), attempts_per_minute, time_variance,
      (ua_diversity : ℚ), password_pattern_score, success_rate, (total_attempts : ℚ)]

/-- The loaded classifier artifact: `model.predict` / `model.predict_proba`
of the pickled scikit-learn model, abstracted as pure functions of the
feature row (the model file itself is not part of this repository). -/
structure MLModel where
  predict : List ℚ → String
  predict_proba : List ℚ → List ℚ

/-- The `risk_map` dict literal inside `RiskScorer.score_ip`. -/
def risk_map (c : String) : Option Nat :=
  if c = "normal" then some 0
  else if c = "suspicious" then some 60
  else if c = "credential_stuffing" then some 85
  else if c = "brute_force" then some 95
  else none

/-- Python `int()` on a float: truncation toward zero. -/
def pyInt (q : ℚ) : ℤ := if 0 ≤ q then ⌊q⌋ else -⌊-q⌋

/-- Python `round` to an integer: banker's rounding (ties to even). -/
def roundHalfEven (q : ℚ) : ℤ :=
  if q - ⌊q⌋ < 1/2 then ⌊q⌋
  else if (1 : ℚ)/2 < q - ⌊q⌋ then ⌊q⌋ + 1
  else if ⌊q⌋ % 2 = 0 then ⌊q⌋ else ⌊q⌋ + 1

/-- Python `round(x, 1)`. -/
def pyRound1 (q : ℚ) : ℚ := (roundHalfEven (q * 10) : ℚ) / 10

/-- The dict returned by `RiskScorer.score_ip` (the optional `'error'` entry
is reflected only through the `classification` field). -/
structure ScoreResult where
  risk_score : ℤ
  classification : String
  confidence : ℚ
  probabilities : List (String × ℚ)
deriving DecidableEq, Repr

/-- `RiskScorer.score_ip(ip)`.  `model = none` models `self.model` being
unset after a failed `load_model`; `classes` is `self.metadata['classes']`.
The `except` branch of the original (reached when `max()` sees an empty
probability array or `probabilities[i]` is out of range) yields the
`'error'` dict. -/
def score_ip (model : Option MLModel) (classes : List String) (sqrtFn : ℚ → ℚ)
    (c : Cache) (ip : String) : ScoreResult :=
  match model with
  | none => { risk_score := 50, classification := "unknown", confidence := 0, probabilities := [] }
  | some m =>
    let features := extract_features sqrtFn (c ip)
    let prediction := m.predict features
    let probabilities := m.predict_proba features
    if probabilities = [] ∨ probabilities.length < classes.length then
      { risk_score := 50, classification := "error", confidence := 0, probabilities := [] }
    else
      let base_risk := (risk_map prediction).getD 50
      let max_prob := pyMax probabilities
      let confidence := max_prob * 100
      let risk_score := pyInt ((base_risk : ℚ) * max_prob)
      let prob_dict := classes.zipWith (fun cn p => (cn, pyRound1 (p * 100))) probabilities
      { risk_score := risk_score, classification := prediction
        confidence := pyRound1 confidence, probabilities := prob_dict }

/-- `RiskScorer.should_block(ip, threshold)`: `risk_score >= threshold`. -/
def should_block (model : Option MLModel) (classes : List String) (sqrtFn : ℚ → ℚ)
    (c : Cache) (ip : String) (threshold : ℤ) : Bool :=
  threshold ≤ (score_ip model classes sqrtFn c ip).risk_score

/-- Module-level `score_login_attempt`: returns the safe default (and leaves
the cache untouched) when no model is loaded, otherwise updates the cache and
scores the IP.  Returns the result together with the new cache state. -/
def score_login_attempt (model : Option MLModel) (classes : List String) (sqrtFn : ℚ → ℚ)
    (now : ℚ) (c : Cache) (ip username status fingerprint : String)
    (user_agent : Option String) : ScoreResult × Cache :=
  match model with
  | none =>
    ({ risk_score := 0, classification := "unknown", confidence := 0, probabilities := [] }, c)
  | some m =>
    let c' := update_cache now c ip username status fingerprint user_agent
    (score_ip (some m) classes sqrtFn c' ip, c')

/-! ### `detection.py` -/

/-- One row fetched by `fetch_recent_logs`.  `ts = none` models a timestamp
string `datetime.fromisoformat` rejects (the row is skipped by the sweep). -/
structure LogRow where
  username : String
  ip : String
  status : String
  ts : Option ℚ
deriving DecidableEq, Repr

/-- One persisted row of the `alerts` table. -/
structure AlertRow where
  alert_type : String
  details : String
  ts : ℚ
deriving DecidableEq, Repr

/-- The in-memory `_last_alerts` dict: `(alert_type, key) -> datetime`. -/
abbrev LastAlerts : Type := List ((String × String) × ℚ)

/-- Dict read `_last_alerts.get(key)`. -/
def lookupLast (la : LastAlerts) (k : String × String) : Option ℚ :=
  match la with
  | [] => none
  | (k', t) :: rest => if k' = k then some t else lookupLast rest k

/-- Dict write `_last_alerts[key] = now`. -/
def setLast (la : LastAlerts) (k : String × String) (t : ℚ) : LastAlerts :=
  match la with
  | [] => [(k, t)]
  | (k', t') :: rest => if k' = k then (k', t) :: rest else (k', t') :: setLast rest k t

/-- `get_last_alert_time(alert_type, details)`: timestamp of the most recent
persisted alert with identical type and details text, if any. -/
def get_last_alert_time (db : List AlertRow) (atype details : String) : Option ℚ :=
  ((db.filter (fun r => r.alert_type = atype ∧ r.details = details)).getLast?).map AlertRow.ts

/-- `insert_alert(alert_type, details)` stamped with the current time. -/
def insert_alert (db : List AlertRow) (now : ℚ) (atype details : String) : List AlertRow :=
  db ++ [{ alert_type := atype, details := details, ts := now }]

/-- Whether a fetched row counts for a detector: parseable timestamp with
`(now - t).total_seconds() <= window` and a status starting with `"fail"`. -/
def inWindowFail (now window : ℚ) (r : LogRow) : Bool :=
  match r.ts with
  | none => false
  | some t => decide (now - t ≤ window) && pyStartsWith r.status "fail"

/-- `BRUTE_WINDOW` (seconds). -/
def BRUTE_WINDOW : ℚ := 120
/-- `BRUTE_THRESHOLD`. -/
def BRUTE_THRESHOLD : Nat := 5
/-- `STUFF_WINDOW` (seconds). -/
def STUFF_WINDOW : ℚ := 60
/-- `STUFF_THRESHOLD`. -/
def STUFF_THRESHOLD : Nat := 4
/-- `COOLDOWN` (seconds). -/
def COOLDOWN : ℚ := 300

/-- The `ip_counts` dict built by the brute-force phase. -/
def bruteCounts (now : ℚ) (logs : List LogRow) : List (String × Nat) :=
  logs.foldl (fun acc r => if inWindowFail now BRUTE_WINDOW r then bumpCount r.ip acc else acc) []

/-- The `(ip, count)` pairs that pass `count >= BRUTE_THRESHOLD`. -/
def bruteCandidates (now : ℚ) (logs : List LogRow) : List (String × Nat) :=
  (bruteCounts now logs).filter (fun p => BRUTE_THRESHOLD ≤ p.2)

/-- The `failed_logs` list of `(username, ip)` pairs of the stuffing phase. -/
def failedPairs (now : ℚ) (logs : List LogRow) : List (String × String) :=
  (logs.filter (inWindowFail now STUFF_WINDOW)).map (fun r => (r.username, r.ip))

/-- `ip_users.setdefault(ip, set()).add(username)`. -/
def addUserTo : List (String × List String) → String → String → List (String × List String)
  | [], ip, u => [(ip, [u])]
  | (ip', s) :: rest, ip, u =>
    if ip' = ip then (ip', insertSet u s) :: rest else (ip', s) :: addUserTo rest ip u

/-- The `ip_users` dict mapping each IP to the set of usernames that failed
from it inside the stuffing window. -/
def ipUsers (now : ℚ) (logs : List LogRow) : List (String × List String) :=
  (failedPairs now logs).foldl (fun acc p => addUserTo acc p.2 p.1) []

/-- The `(ip, users)` pairs that pass `len(users) >= STUFF_THRESHOLD`. -/
def stuffCandidates (now : ℚ) (logs : List LogRow) : List (String × List String) :=
  (ipUsers now logs).filter (fun p => STUFF_THRESHOLD ≤ p.2.length)

/-- `details` text of a brute-force alert (count-independent by design). -/
def bruteDetails (ip : String) : String := "Brute force attack detected from IP " ++ ip

/-- `details` text of a credential-stuffing alert. -/
def stuffDetails (ip : String) : String := "Credential stuffing attack detected from IP " ++ ip

/-- The mutable state a sweep threads: the in-process `_last_alerts` dict and
the persisted `alerts` table. -/
structure SweepSt where
  la : LastAlerts
  db : List AlertRow
deriving Repr

/-- The in-process half of the dedup test: `not last or
`(now - last).total_seconds() > COOLDOWN`. -/
def timerOk (now : ℚ) (la : LastAlerts) (k : String × String) : Bool :=
  match lookupLast la k with
  | none => true
  | some t => decide (COOLDOWN < now - t)

/-- The store half of the dedup test: `db_ok` stays `True` unless the most
recent persisted alert with identical `(alert_type, details)` is at most
`COOLDOWN` seconds old. -/
def dbOk (now : ℚ) (db : List AlertRow) (atype details : String) : Bool :=
  match get_last_alert_time db atype details with
  | none => true
  | some t => decide (¬ now - t ≤ COOLDOWN)

/-- The emission body shared by both phases: consult the in-process cooldown
timer and the most recent persisted alert with identical `(alert_type,
details)`, and on emission persist the alert and reset the timer. -/
def emitStep (now : ℚ) (atype details key : String) (s : SweepSt) : SweepSt :=
  if timerOk now s.la (atype, key) && dbOk now s.db atype details then
    { la := setLast s.la (atype, key) now, db := insert_alert s.db now atype details }
  else s

/-- A `(alert_type, details, key)` triple whose emission test is false in
state `s` at time `now` (nothing would be emitted for it). -/
def blocked (now : ℚ) (atype details key : String) (s : SweepSt) : Prop :=
  (timerOk now s.la (atype, key) && dbOk now s.db atype details) = false

/-- One phase's `for ip, ... in candidates` loop over `(details, key)` pairs. -/
def processAlerts (now : ℚ) (atype : String) (items : List (String × String)) (s : SweepSt) : SweepSt :=
  items.foldl (fun s p => emitStep now atype p.1 p.2 s) s

/-- `run_detection_once()`: the brute-force phase followed by the
credential-stuffing phase, over the fetched `logs`, at time `now`. -/
def run_detection_once (now : ℚ) (logs : List LogRow) (s : SweepSt) : SweepSt :=
  let s1 := processAlerts now "BRUTE_FORCE"
    ((bruteCandidates now logs).map (fun p => (bruteDetails p.1, p.1))) s
  processAlerts now "CREDENTIAL_STUFFING"
    ((stuffCandidates now logs).map (fun p => (stuffDetails p.1, p.1))) s1

/-! ### `ml/train_model.py` -/

/-- The two artifact files `train_risk_model` writes (`models/risk_model.pkl`
and `models/risk_model_metadata.pkl`); `none` means the file is absent. -/
structure ModelFiles (M A : Type) where
  modelFile : Option M
  metadataFile : Option A
deriving DecidableEq

/-- `train_risk_model()`.  `real`/`synthetic` are the feature rows collected
in step 1; the scikit-learn fit/evaluate steps are abstracted as `fit` (they
live outside this repository).  Returns the success flag together with the
resulting filesystem state: on `len(all_features) < 50` the function returns
`False` before fitting or writing, otherwise both artifacts are written. -/
def train_risk_model {M A : Type} (real synthetic : List (List ℚ × String))
    (fit : List (List ℚ × String) → M × A) (fs : ModelFiles M A) : Bool × ModelFiles M A :=
  let all_features := real ++ synthetic
  if all_features.length < 50 then (false, fs)
  else
    let out := fit all_features
    (true, { modelFile := some out.1, metadataFile := some out.2 })

/-! ### Specification-side formulations and concrete inputs used by the claims -/

/-- The base risk weight table as the specification words it
(`normal`→0, `suspicious`→60, `credential_stuffing`→85, `brute_force`→95),
for comparison against the scorer's `risk_map`. -/
def specBaseWeight (cls : String) : ℚ :=
  if cls = "normal" then 0
  else if cls = "suspicious" then 60
  else if cls = "credential_stuffing" then 85
  else if cls = "brute_force" then 95
  else 0

/-- First read of an association list built by `bumpCount` (Python dict read). -/
def getCount (l : List (String × Nat)) (k : String) : Nat :=
  match l with
  | [] => 0
  | (a, n) :: rest => if a = k then n else getCount rest k

/-- First read of an association list built by `addUserTo`. -/
def getUsers (l : List (String × List String)) (ip : String) : List String :=
  match l with
  | [] => []
  | (a, s) :: rest => if a = ip then s else getUsers rest ip

/-- Specification-side count: number of failed-status events from `ip` whose
timestamp parses and lies within `BRUTE_WINDOW` seconds of `now`, stated
directly as a filter over the fetched logs. -/
def bruteFailCount (now : ℚ) (logs : List LogRow) (ip : String) : Nat :=
  (logs.filter (fun r => inWindowFail now BRUTE_WINDOW r && r.ip == ip)).length

/-- Specification-side list of usernames attempted in failed events from `ip`
within `STUFF_WINDOW` seconds of `now`; its `dedup` length is the distinct
username count the spec thresholds on. -/
def stuffUserList (now : ℚ) (logs : List LogRow) (ip : String) : List String :=
  (logs.filter (fun r => inWindowFail now STUFF_WINDOW r && r.ip == ip)).map LogRow.username

/-- The update sequence exhibiting the window/counter inconsistency: two
failed attempts at t = 0 s and t = 1 s, then one success at t = 7200 s (the
first two fall out of the 1-hour window at the third update, but the
`failures` counter is never decremented). -/
def c1seq : Cache :=
  update_cache 7200 (update_cache 1 (update_cache 0 emptyCache
    "10.9.9.9" "alice" "fail_wrong_password" "fp1" (some "UA"))
    "10.9.9.9" "alice" "fail_wrong_password" "fp1" (some "UA"))
    "10.9.9.9" "alice" "success" "fp1" (some "UA")

/-- A classifier answering `brute_force` with maximum probability 0.9999:
`int(95 * 0.9999) = 94` while `round(95 * 0.9999) = 95`, and
`round(99.99, 1) = 100.0 ≠ 99.99`. -/
def c2cexModel : MLModel :=
  { predict := fun _ => "brute_force", predict_proba := fun _ => [9999/10000, 1/10000] }

/-- A trivial classifier used to instantiate the amended scoring theorem. -/
def c2witModel : MLModel :=
  { predict := fun _ => "normal", predict_proba := fun _ => [1] }

/-- Six failed `fail_wrong_password` events from IP `10.0.0.5`, all within
60 seconds of the sweep time 1000. -/
def c4DemoLogs : List LogRow :=
  [{ username := "admin", ip := "10.0.0.5", status := "fail_wrong_password", ts := some 950 },
   { username := "admin", ip := "10.0.0.5", status := "fail_wrong_password", ts := some 955 },
   { username := "admin", ip := "10.0.0.5", status := "fail_wrong_password", ts := some 960 },
   { username := "admin", ip := "10.0.0.5", status := "fail_wrong_password", ts := some 970 },
   { username := "admin", ip := "10.0.0.5", status := "fail_wrong_password", ts := some 980 },
   { username := "admin", ip := "10.0.0.5", status := "fail_wrong_password", ts := some 990 }]

/-- Failed attempts for only three distinct usernames from IP `10.0.0.9`,
all within 60 seconds of the sweep time 1000. -/
def c5DemoLogs : List LogRow :=
  [{ username := "u1", ip := "10.0.0.9", status := "fail_wrong_password", ts := some 960 },
   { username := "u2", ip := "10.0.0.9", status := "fail_wrong_password", ts := some 970 },
   { username := "u3", ip := "10.0.0.9", status := "fail_wrong_password", ts := some 980 }]

/-- A window-state value with two attempts, two users, two fingerprints, two
user agents and three timestamps, used to instantiate the determinism
theorem together with `c8StateB`. -/
def c8StateA : CacheData :=
  { attempts := [{ username := "a", status := "fail_x", timestamp := 1, fingerprint := "f" },
                 { username := "b", status := "success", timestamp := 3, fingerprint := "g" }]
    users := ["a", "b"]
    fingerprints := [("f", 1), ("g", 1)]
    user_agents := ["UA1", "UA2"]
    timestamps := [1, 3, 2]
    failures := 1
    successes := 1 }

/-- `c8StateA` with every set-like collection listed in a different order. -/
def c8StateB : CacheData :=
  { attempts := [{ username := "b", status := "success", timestamp := 3, fingerprint := "g" },
                 { username := "a", status := "fail_x", timestamp := 1, fingerprint := "f" }]
    users := ["b", "a"]
    fingerprints := [("g", 1), ("f", 1)]
    user_agents := ["UA2", "UA1"]
    timestamps := [3, 2, 1]
    failures := 1
    successes := 1 }

/-! ### Helper lemmas about the Python `max`/`min` folds -/

theorem le_foldl_max (l : List ℚ) (a : ℚ) : a ≤ l.foldl max a := by
  induction l generalizing a with
  | nil => exact le_rfl
  | cons x xs ih => exact le_trans (le_max_left a x) (ih (max a x))

theorem mem_le_foldl_max {l : List ℚ} {y : ℚ} (a : ℚ) (hy : y ∈ l) : y ≤ l.foldl max a := by
  induction l generalizing a with
  | nil => cases hy
  | cons x xs ih =>
    rcases List.mem_cons.mp hy with h | h
    · subst h; exact le_trans (le_max_right a y) (le_foldl_max xs (max a y))
    · exact ih (max a x) h

theorem foldl_max_mem (l : List ℚ) (a : ℚ) : l.foldl max a = a ∨ l.foldl max a ∈ l := by
  induction l generalizing a with
  | nil => exact Or.inl rfl
  | cons x xs ih =>
    rcases ih (max a x) with h | h
    · rcases max_choice a x with hm | hm
      · exact Or.inl (by rw [List.foldl_cons, h, hm])
      · exact Or.inr (by rw [List.foldl_cons, h, hm]; exact List.mem_cons_self x xs)
    · exact Or.inr (List.mem_cons_of_mem x h)

theorem pyMax_mem {l : List ℚ} (h : l ≠ []) : pyMax l ∈ l := by
  match l with
  | x :: xs =>
    simp only [pyMax]
    rcases foldl_max_mem xs x with h1 | h1
    · rw [h1]; exact List.mem_cons_self x xs
    · exact List.mem_cons_of_mem x h1

theorem le_pyMax {l : List ℚ} {y : ℚ} (hy : y ∈ l) : y ≤ pyMax l := by
  match l with
  | x :: xs =>
    simp only [pyMax]
    rcases List.mem_cons.mp hy with h | h
    · subst h; exact le_foldl_max xs y
    · exact mem_le_foldl_max x h

theorem pyMax_eq_of_perm {l₁ l₂ : List ℚ} (h : List.Perm l₁ l₂) : pyMax l₁ = pyMax l₂ := by
  rcases l₁ with _ | ⟨x, xs⟩
  · rw [List.Perm.eq_nil h.symm]
  · have hne₂ : l₂ ≠ [] := fun hn => by simp [hn] at h
    exact le_antisymm (le_pyMax (h.mem_iff.mp (pyMax_mem (by simp))))
      (le_pyMax (h.symm.mem_iff.mp (pyMax_mem hne₂)))

theorem foldl_min_le (l : List ℚ) (a : ℚ) : l.foldl min a ≤ a := by
  induction l generalizing a with
  | nil => exact le_rfl
  | cons x xs ih => exact le_trans (ih (min a x)) (min_le_left a x)

theorem foldl_min_le_mem {l : List ℚ} {y : ℚ} (a : ℚ) (hy : y ∈ l) : l.foldl min a ≤ y := by
  induction l generalizing a with
  | nil => cases hy
  | cons x xs ih =>
    rcases List.mem_cons.mp hy with h | h
    · subst h; exact le_trans (foldl_min_le xs (min a y)) (min_le_right a y)
    · exact ih (min a x) h

theorem foldl_min_mem (l : List ℚ) (a : ℚ) : l.foldl min a = a ∨ l.foldl min a ∈ l := by
  induction l generalizing a with
  | nil => exact Or.inl rfl
  | cons x xs ih =>
    rcases ih (min a x) with h | h
    · rcases min_choice a x with hm | hm
      · exact Or.inl (by rw [List.foldl_cons, h, hm])
      · exact Or.inr (by rw [List.foldl_cons, h, hm]; exact List.mem_cons_self x xs)
    · exact Or.inr (List.mem_cons_of_mem x h)

theorem pyMin_mem {l : List ℚ} (h : l ≠ []) : pyMin l ∈ l := by
  match l with
  | x :: xs =>
    simp only [pyMin]
    rcases foldl_min_mem xs x with h1 | h1
    · rw [h1]; exact List.mem_cons_self x xs
    · exact List.mem_cons_of_mem x h1

theorem pyMin_le {l : List ℚ} {y : ℚ} (hy : y ∈ l) : pyMin l ≤ y := by
  match l with
  | x :: xs =>
    simp only [pyMin]
    rcases List.mem_cons.mp hy with h | h
    · subst h; exact foldl_min_le xs y
    · exact foldl_min_le_mem x h

theorem pyMin_eq_of_perm {l₁ l₂ : List ℚ} (h : List.Perm l₁ l₂) : pyMin l₁ = pyMin l₂ := by
  rcases l₁ with _ | ⟨x, xs⟩
  · rw [List.Perm.eq_nil h.symm]
  · have hne₂ : l₂ ≠ [] := fun hn => by simp [hn] at h
    exact le_antisymm (pyMin_le (h.symm.mem_iff.mp (pyMin_mem hne₂)))
      (pyMin_le (h.mem_iff.mp (pyMin_mem (by simp))))

/-! ### Claim theorems -/

section

attribute [local semireducible] Rat.sub Rat.add Rat.mul Rat.inv Rat.ofScientific

/-- C3: after every single `update_cache(ip, ...)` call — from any prior cache
state, so in particular after any sequence of updates — every tuple retained
in that IP's `attempts` list and every retained entry of its `timestamps`
list is strictly newer than `now - 3600` (the 1-hour retention horizon);
the eviction is part of the update itself, not a periodic sweep. -/
theorem c3_eviction_on_every_update (c : Cache) (now : ℚ)
    (ip username status fingerprint : String) (ua : Option String) :
    (∀ a ∈ ((update_cache now c ip username status fingerprint ua) ip).attempts,
        now - 3600 < a.timestamp) ∧
    (∀ t ∈ ((update_cache now c ip username status fingerprint ua) ip).timestamps,
        now - 3600 < t) := by
  constructor
  · intro a ha
    simp only [update_cache, if_pos, List.mem_filter, decide_eq_true_eq] at ha
    exact ha.2
  · intro t ht
    simp only [update_cache, if_pos, List.mem_filter, decide_eq_true_eq] at ht
    exact ht.2

/-- Witness for C3 at a concrete update. -/
theorem c3_eviction_on_every_update_witness :
    (0 : ℚ) - 3600 < (0 : ℚ) :=
  (c3_eviction_on_every_update emptyCache 0 "10.0.0.1" "u" "success" "fp" none).2
    0 (by decide)

/-- C1 fails on the code: after two failed updates at t = 0 s, 1 s and a
successful one at t = 7200 s, the two failures are evicted from the
`attempts` window but still counted by the `failures` counter, so
`extract_features` returns `failedAttemptRate = 2 ∉ [0,1]` (the whole vector
is `[2, 1, 0, 0, 1, 3, 1, 1]`). -/
theorem c1_failed_rate_exceeds_one :
    extract_features (fun q => q) (c1seq "10.9.9.9") = [2, 1, 0, 0, 1, 3, 1, 1] ∧
    ¬ (extract_features (fun q => q) (c1seq "10.9.9.9")).headD 0 ≤ 1 := by
  constructor <;> decide

/-- C7: with no model loaded, `score_login_attempt` is total and returns the
safe default `risk_score = 0`, classification `"unknown"`, confidence `0`,
leaving the cache untouched, for every input. -/
theorem c7_no_model_safe_default (classes : List String) (sqrtFn : ℚ → ℚ) (now : ℚ)
    (c : Cache) (ip username status fingerprint : String) (ua : Option String) :
    score_login_attempt none classes sqrtFn now c ip username status fingerprint ua =
      ({ risk_score := 0, classification := "unknown", confidence := 0, probabilities := [] }, c) :=
  rfl

/-- C10: with no model loaded, `score_ip` returns `risk_score = 50` (not 0)
with classification `"unknown"`, so `should_block` answers `true` for every
threshold ≤ 50, for every IP. -/
theorem c10_no_model_should_block (classes : List String) (sqrtFn : ℚ → ℚ)
    (c : Cache) (ip : String) (threshold : ℤ) :
    score_ip none classes sqrtFn c ip =
      { risk_score := 50, classification := "unknown", confidence := 0, probabilities := [] } ∧
    (threshold ≤ 50 → should_block none classes sqrtFn c ip threshold = true) := by
  refine ⟨rfl, fun h => ?_⟩
  simpa [should_block, score_ip] using h

/-- Witness for C10 at threshold 50 on an empty cache. -/
theorem c10_no_model_should_block_witness :
    should_block none [] (fun q => q) emptyCache "203.0.113.7" 50 = true :=
  (c10_no_model_should_block [] (fun q => q) emptyCache "203.0.113.7" 50).2 (by decide)

/-- C9: with fewer than 50 combined samples, `train_risk_model` returns the
failure flag with the filesystem unchanged — universally in the fitting
function, so no fit is consulted — and whenever it reports success both the
model artifact and its metadata have been written together. -/
theorem c9_insufficient_data_aborts {M A : Type} (real synthetic : List (List ℚ × String))
    (fit : List (List ℚ × String) → M × A) (fs : ModelFiles M A) :
    ((real ++ synthetic).length < 50 → train_risk_model real synthetic fit fs = (false, fs)) ∧
    ((train_risk_model real synthetic fit fs).1 = true →
      train_risk_model real synthetic fit fs =
        (true, { modelFile := some (fit (real ++ synthetic)).1
                 metadataFile := some (fit (real ++ synthetic)).2 })) := by
  simp only [train_risk_model]
  by_cases hlt : (real ++ synthetic).length < 50
  · rw [if_pos hlt]
    refine ⟨fun _ => rfl, fun h => ?_⟩
    simp at h
  · rw [if_neg hlt]
    exact ⟨fun h => absurd h hlt, fun _ => rfl⟩

/-- Witness for C9 on an empty training set and empty filesystem. -/
theorem c9_insufficient_data_aborts_witness :
    train_risk_model ([] : List (List ℚ × String)) [] (fun _ => ((0 : ℕ), (0 : ℕ)))
      { modelFile := none, metadataFile := none } =
      (false, { modelFile := none, metadataFile := none }) :=
  (c9_insufficient_data_aborts [] [] (fun _ => ((0 : ℕ), (0 : ℕ)))
    { modelFile := none, metadataFile := none }).1 (by decide)

/-- C2 fails on the code at maximum probability 0.9999 for `brute_force`:
the scorer truncates (`int`), so it returns 94 where `round(95 × 0.9999) = 95`,
and its confidence is `round(99.99, 1) = 100 ≠ 99.99`. -/
theorem c2_not_rounded_counterexample :
    (score_ip (some c2cexModel) ["brute_force", "normal"] (fun q => q)
        emptyCache "1.2.3.4").risk_score
      ≠ roundHalfEven (specBaseWeight "brute_force" * pyMax [9999/10000, 1/10000]) ∧
    (score_ip (some c2cexModel) ["brute_force", "normal"] (fun q => q)
        emptyCache "1.2.3.4").confidence
      ≠ pyMax [(9999 : ℚ)/10000, 1/10000] * 100 := by
  constructor <;> decide

/-- C2 (amended): with a loaded model predicting one of the four classes, the
returned `risk_score` is `⌊baseWeight × maxClassProbability⌋` — Python `int()`
truncation, not `round` — an integer in `[0, 100]`, and the returned
confidence is `maxClassProbability × 100` rounded to one decimal place. -/
theorem c2_risk_score_truncated (m : MLModel) (classes : List String) (sqrtFn : ℚ → ℚ)
    (c : Cache) (ip : String)
    (hpred : m.predict (extract_features sqrtFn (c ip)) ∈
      (["normal", "suspicious", "credential_stuffing", "brute_force"] : List String))
    (hne : m.predict_proba (extract_features sqrtFn (c ip)) ≠ [])
    (hlen : classes.length ≤ (m.predict_proba (extract_features sqrtFn (c ip))).length)
    (hprob : ∀ p ∈ m.predict_proba (extract_features sqrtFn (c ip)), 0 ≤ p ∧ p ≤ 1) :
    (score_ip (some m) classes sqrtFn c ip).risk_score =
      ⌊specBaseWeight (m.predict (extract_features sqrtFn (c ip))) *
        pyMax (m.predict_proba (extract_features sqrtFn (c ip)))⌋ ∧
    0 ≤ (score_ip (some m) classes sqrtFn c ip).risk_score ∧
    (score_ip (some m) classes sqrtFn c ip).risk_score ≤ 100 ∧
    (score_ip (some m) classes sqrtFn c ip).confidence =
      pyRound1 (pyMax (m.predict_proba (extract_features sqrtFn (c ip))) * 100) := by
  have hmax0 : 0 ≤ pyMax (m.predict_proba (extract_features sqrtFn (c ip))) :=
    (hprob _ (pyMax_mem hne)).1
  have hmax1 : pyMax (m.predict_proba (extract_features sqrtFn (c ip))) ≤ 1 :=
    (hprob _ (pyMax_mem hne)).2
  have hbase : (((risk_map (m.predict (extract_features sqrtFn (c ip)))).getD 50 : ℕ) : ℚ) =
      specBaseWeight (m.predict (extract_features sqrtFn (c ip))) := by
    simp only [List.mem_cons, List.mem_singleton, List.not_mem_nil, or_false] at hpred
    rcases hpred with h | h | h | h <;> rw [h] <;> decide
  have hw0 : 0 ≤ specBaseWeight (m.predict (extract_features sqrtFn (c ip))) := by
    simp only [List.mem_cons, List.mem_singleton, List.not_mem_nil, or_false] at hpred
    rcases hpred with h | h | h | h <;> rw [h] <;> decide
  have hw95 : specBaseWeight (m.predict (extract_features sqrtFn (c ip))) ≤ 95 := by
    simp only [List.mem_cons, List.mem_singleton, List.not_mem_nil, or_false] at hpred
    rcases hpred with h | h | h | h <;> rw [h] <;> decide
  have hq0 : 0 ≤ specBaseWeight (m.predict (extract_features sqrtFn (c ip))) *
      pyMax (m.predict_proba (extract_features sqrtFn (c ip))) := mul_nonneg hw0 hmax0
  have hq100 : specBaseWeight (m.predict (extract_features sqrtFn (c ip))) *
      pyMax (m.predict_proba (extract_features sqrtFn (c ip))) ≤ 100 :=
    le_trans (mul_le_of_le_one_right hw0 hmax1) (le_trans hw95 (by norm_num))
  simp only [score_ip]
  rw [if_neg (not_or.mpr ⟨hne, Nat.not_lt.mpr hlen⟩)]
  refine ⟨?_, ?_, ?_, rfl⟩
  · show pyInt _ = _
    rw [pyInt, hbase, if_pos hq0]
  · show (0 : ℤ) ≤ pyInt _
    rw [pyInt, hbase, if_pos hq0]
    exact Int.le_floor.mpr (by exact_mod_cast hq0)
  · show pyInt _ ≤ 100
    rw [pyInt, hbase, if_pos hq0]
    calc ⌊specBaseWeight (m.predict (extract_features sqrtFn (c ip))) *
          pyMax (m.predict_proba (extract_features sqrtFn (c ip)))⌋
        ≤ ⌊(100 : ℚ)⌋ := Int.floor_mono hq100
      _ = 100 := by norm_num

theorem sortQ_eq_of_perm {l₁ l₂ : List ℚ} (h : List.Perm l₁ l₂) : sortQ l₁ = sortQ l₂ :=
  List.eq_of_perm_of_sorted
    ((List.perm_insertionSort _ l₁).trans (h.trans (List.perm_insertionSort _ l₂).symm))
    (List.sorted_insertionSort _ l₁) (List.sorted_insertionSort _ l₂)

theorem nat_le_foldl_max (l : List Nat) (a : Nat) : a ≤ l.foldl max a := by
  induction l generalizing a with
  | nil => exact le_rfl
  | cons x xs ih => exact le_trans (le_max_left a x) (ih (max a x))

theorem nat_mem_le_foldl_max {l : List Nat} {y : Nat} (a : Nat) (hy : y ∈ l) :
    y ≤ l.foldl max a := by
  induction l generalizing a with
  | nil => cases hy
  | cons x xs ih =>
    rcases List.mem_cons.mp hy with h | h
    · subst h; exact le_trans (le_max_right a y) (nat_le_foldl_max xs (max a y))
    · exact ih (max a x) h

theorem nat_foldl_max_mem (l : List Nat) (a : Nat) : l.foldl max a = a ∨ l.foldl max a ∈ l := by
  induction l generalizing a with
  | nil => exact Or.inl rfl
  | cons x xs ih =>
    rcases ih (max a x) with h | h
    · rcases max_choice a x with hm | hm
      · exact Or.inl (by rw [List.foldl_cons, h, hm])
      · exact Or.inr (by rw [List.foldl_cons, h, hm]; exact List.mem_cons_self x xs)
    · exact Or.inr (List.mem_cons_of_mem x h)

theorem pyMaxNat_mem {l : List Nat} (h : l ≠ []) : pyMaxNat l ∈ l := by
  match l with
  | x :: xs =>
    simp only [pyMaxNat]
    rcases nat_foldl_max_mem xs x with h1 | h1
    · rw [h1]; exact List.mem_cons_self x xs
    · exact List.mem_cons_of_mem x h1

theorem le_pyMaxNat {l : List Nat} {y : Nat} (hy : y ∈ l) : y ≤ pyMaxNat l := by
  match l with
  | x :: xs =>
    simp only [pyMaxNat]
    rcases List.mem_cons.mp hy with h | h
    · subst h; exact nat_le_foldl_max xs y
    · exact nat_mem_le_foldl_max x h

theorem pyMaxNat_eq_of_perm {l₁ l₂ : List Nat} (h : List.Perm l₁ l₂) :
    pyMaxNat l₁ = pyMaxNat l₂ := by
  rcases l₁ with _ | ⟨x, xs⟩
  · rw [List.Perm.eq_nil h.symm]
  · have hne₂ : l₂ ≠ [] := fun hn => by simp [hn] at h
    exact le_antisymm (le_pyMaxNat (h.mem_iff.mp (pyMaxNat_mem (by simp))))
      (le_pyMaxNat (h.symm.mem_iff.mp (pyMaxNat_mem hne₂)))

/-- C8: the feature extractor is a deterministic function of the WindowState
contents: its value is unchanged under any reordering of the set-like
collections (users, fingerprint dict, user agents) and of the attempt and
timestamp lists — no numeric output depends on iteration order, the
inter-arrival statistics being computed over sorted timestamps — uniformly
in the square-root primitive. -/
theorem c8_extract_deterministic (sqrtFn : ℚ → ℚ) (d d' : CacheData)
    (ha : List.Perm d.attempts d'.attempts) (hu : List.Perm d.users d'.users)
    (hf : List.Perm d.fingerprints d'.fingerprints)
    (hg : List.Perm d.user_agents d'.user_agents)
    (ht : List.Perm d.timestamps d'.timestamps)
    (hfail : d.failures = d'.failures) (hsucc : d.successes = d'.successes) :
    extract_features sqrtFn d = extract_features sqrtFn d' := by
  have hal : d.attempts.length = d'.attempts.length := ha.length_eq
  have hul : d.users.length = d'.users.length := hu.length_eq
  have hfl : d.fingerprints.length = d'.fingerprints.length := hf.length_eq
  have hgl : d.user_agents.length = d'.user_agents.length := hg.length_eq
  have htl : d.timestamps.length = d'.timestamps.length := ht.length_eq
  have htmax : pyMax d.timestamps = pyMax d'.timestamps := pyMax_eq_of_perm ht
  have htmin : pyMin d.timestamps = pyMin d'.timestamps := pyMin_eq_of_perm ht
  have htsort : sortQ d.timestamps = sortQ d'.timestamps := sortQ_eq_of_perm ht
  have hfmax : pyMaxNat (d.fingerprints.map Prod.snd) = pyMaxNat (d'.fingerprints.map Prod.snd) :=
    pyMaxNat_eq_of_perm (hf.map Prod.snd)
  simp only [extract_features, hal, hul, hfl, hgl, htl, htmax, htmin, htsort, hfmax, hfail, hsucc]

/-- Witness for C8 on two window states listing the same contents in
different orders. -/
theorem c8_extract_deterministic_witness :
    extract_features (fun q => q) c8StateA = extract_features (fun q => q) c8StateB :=
  c8_extract_deterministic (fun q => q) c8StateA c8StateB
    (by decide) (by decide) (by decide) (by decide) (by decide) rfl rfl

/-- Witness for the amended C2 at a classifier answering `normal` with
probability 1 on every input. -/
theorem c2_risk_score_truncated_witness :
    (score_ip (some c2witModel) ["normal"] (fun q => q) emptyCache "8.8.8.8").risk_score =
      ⌊specBaseWeight (c2witModel.predict (extract_features (fun q => q) (emptyCache "8.8.8.8"))) *
        pyMax (c2witModel.predict_proba (extract_features (fun q => q) (emptyCache "8.8.8.8")))⌋ ∧
    0 ≤ (score_ip (some c2witModel) ["normal"] (fun q => q) emptyCache "8.8.8.8").risk_score ∧
    (score_ip (some c2witModel) ["normal"] (fun q => q) emptyCache "8.8.8.8").risk_score ≤ 100 ∧
    (score_ip (some c2witModel) ["normal"] (fun q => q) emptyCache "8.8.8.8").confidence =
      pyRound1 (pyMax (c2witModel.predict_proba
        (extract_features (fun q => q) (emptyCache "8.8.8.8"))) * 100) :=
  c2_risk_score_truncated c2witModel ["normal"] (fun q => q) emptyCache "8.8.8.8"
    (by decide) (by decide) (by decide) (by decide)

theorem lookupLast_setLast_self (la : LastAlerts) (k : String × String) (t : ℚ) :
    lookupLast (setLast la k t) k = some t := by
  induction la with
  | nil => simp [setLast, lookupLast]
  | cons hd rest ih =>
    obtain ⟨a, b⟩ := hd
    by_cases hak : a = k <;> simp [setLast, lookupLast, hak, ih]

theorem lookupLast_setLast_ne (la : LastAlerts) {k q : String × String} (t : ℚ)
    (h : q ≠ k) : lookupLast (setLast la k t) q = lookupLast la q := by
  induction la with
  | nil =>
    simp only [setLast, lookupLast]
    rw [if_neg (fun hh : k = q => h hh.symm)]
  | cons hd rest ih =>
    obtain ⟨a, b⟩ := hd
    simp only [setLast]
    by_cases hak : a = k
    · rw [if_pos hak]
      simp only [lookupLast]
      rw [if_neg (fun haq : a = q => h (haq.symm.trans hak)),
        if_neg (fun haq : a = q => h (haq.symm.trans hak))]
    · rw [if_neg hak]
      simp only [lookupLast]
      by_cases haq : a = q
      · rw [if_pos haq, if_pos haq]
      · rw [if_neg haq, if_neg haq, ih]

theorem get_last_insert_self (db : List AlertRow) (now : ℚ) (atype details : String) :
    get_last_alert_time (insert_alert db now atype details) atype details = some now := by
  simp [get_last_alert_time, insert_alert, List.filter_append, List.getLast?_concat]

theorem get_last_insert_other (db : List AlertRow) (now : ℚ) {a' d' atype details : String}
    (h : ¬ (a' = atype ∧ d' = details)) :
    get_last_alert_time (insert_alert db now a' d') atype details =
      get_last_alert_time db atype details := by
  simp [get_last_alert_time, insert_alert, List.filter_append, h]

theorem emitStep_of_blocked {now : ℚ} {a d k : String} {s : SweepSt}
    (h : blocked now a d k s) : emitStep now a d k s = s := by
  have h' : (timerOk now s.la (a, k) && dbOk now s.db a d) = false := h
  rw [emitStep, if_neg (by simp [h'])]

theorem blocked_emitStep (now : ℚ) (a d k : String) (s : SweepSt) :
    blocked now a d k (emitStep now a d k s) := by
  by_cases hc : (timerOk now s.la (a, k) && dbOk now s.db a d) = true
  · rw [emitStep, if_pos hc]
    show (timerOk now (setLast s.la (a, k) now) (a, k) && _) = false
    have ht : timerOk now (setLast s.la (a, k) now) (a, k) = false := by
      unfold timerOk
      simp only [lookupLast_setLast_self, sub_self]
      decide
    rw [ht, Bool.false_and]
  · rw [emitStep, if_neg (by simp [hc])]
    exact Bool.eq_false_iff.mpr hc

theorem blocked_mono {now : ℚ} {a d k : String} {s : SweepSt}
    (h : blocked now a d k s) (a' d' k' : String) :
    blocked now a d k (emitStep now a' d' k' s) := by
  have h' : (timerOk now s.la (a, k) && dbOk now s.db a d) = false := h
  rw [emitStep]
  by_cases hc : (timerOk now s.la (a', k') && dbOk now s.db a' d') = true
  · rw [if_pos hc]
    show (timerOk now (setLast s.la (a', k') now) (a, k) &&
      dbOk now (insert_alert s.db now a' d') a d) = false
    rcases Bool.and_eq_false_iff.mp h' with ht | hd
    · have ht' : timerOk now (setLast s.la (a', k') now) (a, k) = false := by
        by_cases hkk : (((a, k)) : String × String) = (a', k')
        · unfold timerOk
          rw [hkk]
          simp only [lookupLast_setLast_self, sub_self]
          decide
        · unfold timerOk at ht ⊢
          rw [lookupLast_setLast_ne _ _ hkk]
          exact ht
      rw [ht', Bool.false_and]
    · have hd' : dbOk now (insert_alert s.db now a' d') a d = false := by
        by_cases hmatch : a' = a ∧ d' = d
        · obtain ⟨rfl, rfl⟩ := hmatch
          unfold dbOk
          simp only [get_last_insert_self, sub_self]
          decide
        · unfold dbOk at hd ⊢
          rw [get_last_insert_other _ _ hmatch]
          exact hd
      rw [hd', Bool.and_false]
  · rw [if_neg (by simp [hc])]
    exact h

theorem blocked_processAlerts {now : ℚ} {a d k : String} {s : SweepSt}
    (h : blocked now a d k s) (a' : String) (items : List (String × String)) :
    blocked now a d k (processAlerts now a' items s) := by
  induction items generalizing s with
  | nil => exact h
  | cons x xs ih => exact ih (blocked_mono h a' x.1 x.2)

theorem processAlerts_all_blocked (now : ℚ) (atype : String)
    (items : List (String × String)) (s : SweepSt) :
    ∀ p ∈ items, blocked now atype p.1 p.2 (processAlerts now atype items s) := by
  induction items generalizing s with
  | nil => intro p hp; cases hp
  | cons x xs ih =>
    intro p hp
    rcases List.mem_cons.mp hp with h | h
    · subst h
      exact blocked_processAlerts (blocked_emitStep now atype p.1 p.2 s) atype xs
    · exact ih (emitStep now atype x.1 x.2 s) p h

theorem processAlerts_of_all_blocked {now : ℚ} {atype : String}
    {items : List (String × String)} {s : SweepSt}
    (h : ∀ p ∈ items, blocked now atype p.1 p.2 s) :
    processAlerts now atype items s = s := by
  induction items with
  | nil => rfl
  | cons x xs ih =>
    show processAlerts now atype xs (emitStep now atype x.1 x.2 s) = s
    rw [emitStep_of_blocked (h x (List.mem_cons_self x xs))]
    exact ih (fun p hp => h p (List.mem_cons_of_mem x hp))

/-- C6: `run_detection_once` is idempotent over a sweep interval: with the
same fetched logs and no intervening time, a second call emits nothing — both
the in-process cooldown dict and the persisted alert store come back
unchanged — because emission resets the in-process timer and stamps the
store, so every candidate's dedup test is false on the second call.  Hence at
most one new persisted alert per `(alertType, IP)` pair across the two calls. -/
theorem c6_sweep_idempotent (now : ℚ) (logs : List LogRow) (s : SweepSt) :
    run_detection_once now logs (run_detection_once now logs s) =
      run_detection_once now logs s := by
  rw [run_detection_once]
  have hbrute : ∀ p ∈ (bruteCandidates now logs).map (fun p => (bruteDetails p.1, p.1)),
      blocked now "BRUTE_FORCE" p.1 p.2 (run_detection_once now logs s) := by
    intro p hp
    rw [run_detection_once]
    exact blocked_processAlerts
      (processAlerts_all_blocked now "BRUTE_FORCE" _ s p hp) "CREDENTIAL_STUFFING" _
  rw [processAlerts_of_all_blocked hbrute]
  have hstuff : ∀ p ∈ (stuffCandidates now logs).map (fun p => (stuffDetails p.1, p.1)),
      blocked now "CREDENTIAL_STUFFING" p.1 p.2 (run_detection_once now logs s) := by
    intro p hp
    rw [run_detection_once]
    exact processAlerts_all_blocked now "CREDENTIAL_STUFFING" _ _ p hp
  exact processAlerts_of_all_blocked hstuff

theorem getCount_bumpCount (l : List (String × Nat)) (k q : String) :
    getCount (bumpCount k l) q = getCount l q + (if q = k then 1 else 0) := by
  induction l with
  | nil =>
    simp only [bumpCount, getCount]
    by_cases h : q = k
    · rw [if_pos h, if_pos (h ▸ rfl : k = q)]
    · rw [if_neg h, if_neg (fun hh : k = q => h hh.symm)]
  | cons hd rest ih =>
    obtain ⟨a, n⟩ := hd
    simp only [bumpCount]
    by_cases hak : a = k
    · rw [if_pos hak]
      simp only [getCount]
      by_cases haq : a = q
      · rw [if_pos haq, if_pos haq, if_pos (haq.symm.trans hak)]
      · rw [if_neg haq, if_neg haq, if_neg (fun hh : q = k => haq (hak.trans hh.symm))]
        omega
    · rw [if_neg hak]
      simp only [getCount]
      by_cases haq : a = q
      · rw [if_pos haq, if_pos haq, if_neg (fun hh : q = k => hak (haq.trans hh))]
        omega
      · rw [if_neg haq, if_neg haq, ih]

theorem getCount_foldl_bump (now : ℚ) (logs : List LogRow)
    (acc : List (String × Nat)) (ip : String) :
    getCount (logs.foldl
      (fun acc r => if inWindowFail now BRUTE_WINDOW r then bumpCount r.ip acc else acc) acc) ip =
    getCount acc ip +
      (logs.filter (fun r => inWindowFail now BRUTE_WINDOW r && r.ip == ip)).length := by
  induction logs generalizing acc with
  | nil => simp
  | cons r rest ih =>
    rw [List.foldl_cons, List.filter_cons]
    by_cases hw : inWindowFail now BRUTE_WINDOW r = true
    · rw [if_pos hw, ih]
      by_cases hip : r.ip = ip
      · rw [getCount_bumpCount, if_pos hip.symm]
        have : (inWindowFail now BRUTE_WINDOW r && (r.ip == ip)) = true := by
          rw [hw, hip]; simp
        rw [if_pos this, List.length_cons]
        omega
      · rw [getCount_bumpCount, if_neg (fun hh : ip = r.ip => hip hh.symm)]
        have : ¬ (inWindowFail now BRUTE_WINDOW r && (r.ip == ip)) = true := by
          simp [hip]
        rw [if_neg this]
        omega
    · rw [if_neg hw, ih]
      have : ¬ (inWindowFail now BRUTE_WINDOW r && (r.ip == ip)) = true := by
        simp [hw]
      rw [if_neg this]

theorem getCount_bruteCounts (now : ℚ) (logs : List LogRow) (ip : String) :
    getCount (bruteCounts now logs) ip = bruteFailCount now logs ip := by
  rw [bruteCounts, bruteFailCount, getCount_foldl_bump]
  simp [getCount]

theorem getCount_mem {l : List (String × Nat)} {q : String} {n : Nat}
    (h : getCount l q = n) (hn : n ≠ 0) : (q, n) ∈ l := by
  induction l with
  | nil => exact absurd (h.symm.trans rfl) hn
  | cons hd rest ih =>
    obtain ⟨a, m⟩ := hd
    simp only [getCount] at h
    by_cases haq : a = q
    · rw [if_pos haq] at h
      exact List.mem_cons.mpr (Or.inl (by rw [← haq, h]))
    · rw [if_neg haq] at h
      exact List.mem_cons_of_mem _ (ih h)

/-- C4: whenever an IP has at least `BRUTE_THRESHOLD = 5` failed-status events
within `BRUTE_WINDOW = 120` seconds of the sweep time among the fetched logs,
the brute-force phase produces a candidate alert for it; and on the concrete
scenario of six failed `fail_wrong_password` events from `10.0.0.5` within 60
seconds, with no active cooldown, the sweep persists exactly one
`BRUTE_FORCE` alert, for that IP. -/
theorem c4_brute_force_candidates (now : ℚ) (logs : List LogRow) (ip : String) :
    (BRUTE_THRESHOLD ≤ bruteFailCount now logs ip →
      ip ∈ (bruteCandidates now logs).map Prod.fst) ∧
    (run_detection_once 1000 c4DemoLogs { la := [], db := [] }).db =
      [{ alert_type := "BRUTE_FORCE", details := bruteDetails "10.0.0.5", ts := 1000 }] := by
  constructor
  · intro hth
    have hc : getCount (bruteCounts now logs) ip = bruteFailCount now logs ip :=
      getCount_bruteCounts now logs ip
    have hmem : (ip, bruteFailCount now logs ip) ∈ bruteCounts now logs :=
      getCount_mem hc (by rw [BRUTE_THRESHOLD] at hth; omega)
    have hcand : (ip, bruteFailCount now logs ip) ∈ bruteCandidates now logs :=
      List.mem_filter.mpr ⟨hmem, by simpa using hth⟩
    exact List.mem_map.mpr ⟨_, hcand, rfl⟩
  · decide

/-- Witness for C4: the demo scenario has six qualifying events, so its IP is
a candidate. -/
theorem c4_brute_force_candidates_witness :
    "10.0.0.5" ∈ (bruteCandidates 1000 c4DemoLogs).map Prod.fst :=
  (c4_brute_force_candidates 1000 c4DemoLogs "10.0.0.5").1 (by decide)

theorem mem_insertSet {x u : String} {s : List String} :
    x ∈ insertSet u s ↔ x = u ∨ x ∈ s := by
  rw [insertSet]
  by_cases h : u ∈ s
  · rw [if_pos h]
    constructor
    · exact Or.inr
    · rintro (rfl | hx)
      · exact h
      · exact hx
  · rw [if_neg h]
    rw [List.mem_append, List.mem_singleton, or_comm]

theorem nodup_insertSet {u : String} {s : List String} (h : s.Nodup) :
    (insertSet u s).Nodup := by
  rw [insertSet]
  by_cases hu : u ∈ s
  · rw [if_pos hu]; exact h
  · rw [if_neg hu]
    refine List.Nodup.append h (List.nodup_singleton u) ?_
    intro a ha hb
    rw [List.mem_singleton] at hb
    exact hu (hb ▸ ha)

theorem getUsers_addUserTo_self (acc : List (String × List String)) (ip u : String) :
    getUsers (addUserTo acc ip u) ip = insertSet u (getUsers acc ip) := by
  induction acc with
  | nil => simp [addUserTo, getUsers, insertSet]
  | cons hd rest ih =>
    obtain ⟨a, s0⟩ := hd
    simp only [addUserTo]
    by_cases ha : a = ip
    · rw [if_pos ha]
      simp only [getUsers]
      rw [if_pos ha, if_pos ha]
    · rw [if_neg ha]
      simp only [getUsers]
      rw [if_neg ha, if_neg ha, ih]

theorem getUsers_addUserTo_ne (acc : List (String × List String)) {ip' ip : String}
    (u : String) (h : ip' ≠ ip) :
    getUsers (addUserTo acc ip' u) ip = getUsers acc ip := by
  induction acc with
  | nil =>
    simp only [addUserTo, getUsers]
    rw [if_neg h]
  | cons hd rest ih =>
    obtain ⟨a, s0⟩ := hd
    simp only [addUserTo]
    by_cases ha : a = ip'
    · rw [if_pos ha]
      simp only [getUsers]
      rw [if_neg (fun hh : a = ip => h (ha ▸ hh)), if_neg (fun hh : a = ip => h (ha ▸ hh))]
    · rw [if_neg ha]
      simp only [getUsers]
      by_cases hai : a = ip
      · rw [if_pos hai, if_pos hai]
      · rw [if_neg hai, if_neg hai, ih]

theorem mem_getUsers_fold (pairs : List (String × String))
    (acc : List (String × List String)) (u ip : String) :
    u ∈ getUsers (pairs.foldl (fun acc p => addUserTo acc p.2 p.1) acc) ip ↔
      u ∈ getUsers acc ip ∨ (u, ip) ∈ pairs := by
  induction pairs generalizing acc with
  | nil => simp
  | cons p rest ih =>
    obtain ⟨u', ip'⟩ := p
    rw [List.foldl_cons, ih]
    by_cases h : ip' = ip
    · subst h
      rw [getUsers_addUserTo_self, mem_insertSet]
      simp only [List.mem_cons, Prod.mk.injEq]
      constructor
      · rintro ((rfl | h1) | h1)
        · exact Or.inr (Or.inl (by simp))
        · exact Or.inl h1
        · exact Or.inr (Or.inr h1)
      · rintro (h1 | (⟨rfl, _⟩ | h1))
        · exact Or.inl (Or.inr h1)
        · exact Or.inl (Or.inl rfl)
        · exact Or.inr h1
    · rw [getUsers_addUserTo_ne _ _ h]
      simp only [List.mem_cons, Prod.mk.injEq]
      constructor
      · rintro (h1 | h1)
        · exact Or.inl h1
        · exact Or.inr (Or.inr h1)
      · rintro (h1 | (⟨_, h2⟩ | h1))
        · exact Or.inl h1
        · exact absurd h2.symm h
        · exact Or.inr h1

theorem nodup_getUsers_fold (pairs : List (String × String))
    (acc : List (String × List String)) (h : ∀ ip0, (getUsers acc ip0).Nodup) (ip : String) :
    (getUsers (pairs.foldl (fun acc p => addUserTo acc p.2 p.1) acc) ip).Nodup := by
  induction pairs generalizing acc with
  | nil => exact h ip
  | cons p rest ih =>
    rw [List.foldl_cons]
    refine ih _ (fun ip0 => ?_)
    by_cases hp : p.2 = ip0
    · rw [hp, getUsers_addUserTo_self]
      exact nodup_insertSet (h ip0)
    · rw [getUsers_addUserTo_ne _ _ hp]
      exact h ip0

theorem keys_addUserTo (acc : List (String × List String)) (ip u : String) :
    (addUserTo acc ip u).map Prod.fst =
      if ip ∈ acc.map Prod.fst then acc.map Prod.fst else acc.map Prod.fst ++ [ip] := by
  induction acc with
  | nil => simp [addUserTo]
  | cons hd rest ih =>
    obtain ⟨a, s0⟩ := hd
    simp only [addUserTo, List.map_cons]
    by_cases ha : a = ip
    · rw [if_pos ha, if_pos (by rw [List.mem_cons]; exact Or.inl ha.symm)]
      simp
    · rw [if_neg ha]
      simp only [List.map_cons]
      by_cases hmem : ip ∈ rest.map Prod.fst
      · rw [ih, if_pos hmem, if_pos (by rw [List.mem_cons]; exact Or.inr hmem)]
      · rw [ih, if_neg hmem,
          if_neg (by rw [List.mem_cons]; rintro (hh | hh); exacts [ha hh.symm, hmem hh])]
        simp

theorem nodup_keys_fold (pairs : List (String × String))
    (acc : List (String × List String)) (h : (acc.map Prod.fst).Nodup) :
    (((pairs.foldl (fun acc p => addUserTo acc p.2 p.1) acc)).map Prod.fst).Nodup := by
  induction pairs generalizing acc with
  | nil => exact h
  | cons p rest ih =>
    rw [List.foldl_cons]
    refine ih _ ?_
    rw [keys_addUserTo]
    by_cases hmem : p.2 ∈ acc.map Prod.fst
    · rw [if_pos hmem]; exact h
    · rw [if_neg hmem]
      refine List.Nodup.append h (List.nodup_singleton _) ?_
      intro x hx hb
      rw [List.mem_singleton] at hb
      exact hmem (hb ▸ hx)

theorem getUsers_eq_of_mem {l : List (String × List String)} {ip : String} {s : List String}
    (hnd : (l.map Prod.fst).Nodup) (h : (ip, s) ∈ l) : getUsers l ip = s := by
  induction l with
  | nil => cases h
  | cons hd rest ih =>
    obtain ⟨a, t⟩ := hd
    rw [List.map_cons] at hnd
    rcases List.mem_cons.mp h with heq | hmem
    · cases heq
      simp [getUsers]
    · simp only [getUsers]
      have hane : a ≠ ip := by
        intro hh
        subst hh
        exact (List.nodup_cons.mp hnd).1 (List.mem_map.mpr ⟨(a, s), hmem, rfl⟩)
      rw [if_neg hane]
      exact ih (List.nodup_cons.mp hnd).2 hmem

theorem getUsers_mem {l : List (String × List String)} {ip : String}
    (h : getUsers l ip ≠ []) : (ip, getUsers l ip) ∈ l := by
  induction l with
  | nil => exact absurd rfl h
  | cons hd rest ih =>
    obtain ⟨a, t⟩ := hd
    simp only [getUsers] at h ⊢
    by_cases ha : a = ip
    · rw [if_pos ha] at h ⊢
      exact List.mem_cons.mpr (Or.inl (by rw [ha]))
    · rw [if_neg ha] at h ⊢
      exact List.mem_cons_of_mem _ (ih h)

theorem getUsers_ipUsers_length (now : ℚ) (logs : List LogRow) (ip : String) :
    (getUsers (ipUsers now logs) ip).length = (stuffUserList now logs ip).dedup.length := by
  have hmemiff : ∀ u, u ∈ getUsers (ipUsers now logs) ip ↔
      u ∈ (stuffUserList now logs ip).dedup := by
    intro u
    rw [List.mem_dedup, ipUsers, mem_getUsers_fold]
    have hbase : getUsers ([] : List (String × List String)) ip = [] := rfl
    rw [hbase]
    simp only [List.not_mem_nil, false_or]
    rw [failedPairs, stuffUserList]
    simp only [List.mem_map, List.mem_filter, Bool.and_eq_true, beq_iff_eq]
    constructor
    · rintro ⟨r, ⟨hrl, hw⟩, heq⟩
      injection heq with h1 h2
      exact ⟨r, ⟨hrl, hw, h2⟩, h1⟩
    · rintro ⟨r, ⟨hrl, hw, hip⟩, hu⟩
      exact ⟨r, ⟨hrl, hw⟩, by rw [hu, hip]⟩
  have h1 : (getUsers (ipUsers now logs) ip).Nodup := by
    rw [ipUsers]
    exact nodup_getUsers_fold _ _ (fun x => by simp [getUsers]) ip
  exact List.Perm.length_eq
    ((List.perm_ext_iff_of_nodup h1 (List.nodup_dedup _)).mpr hmemiff)

/-- C5: the credential-stuffing phase produces a candidate alert for an IP
exactly when the number of distinct usernames among its failed events within
`STUFF_WINDOW = 60` seconds of the sweep time is at least
`STUFF_THRESHOLD = 4`; and on the concrete scenario of failed attempts for
only three distinct usernames from `10.0.0.9`, the sweep persists no alert at
all. -/
theorem c5_stuffing_candidates_iff (now : ℚ) (logs : List LogRow) (ip : String) :
    (ip ∈ (stuffCandidates now logs).map Prod.fst ↔
      STUFF_THRESHOLD ≤ (stuffUserList now logs ip).dedup.length) ∧
    (run_detection_once 1000 c5DemoLogs { la := [], db := [] }).db = [] := by
  constructor
  · constructor
    · intro hmem
      obtain ⟨⟨ip0, s⟩, hf, heq⟩ := List.mem_map.mp hmem
      replace heq : ip0 = ip := heq
      subst heq
      obtain ⟨hmem2, hlen⟩ := List.mem_filter.mp hf
      have hnk : ((ipUsers now logs).map Prod.fst).Nodup := by
        rw [ipUsers]
        exact nodup_keys_fold _ _ (by simp)
      have hgu := getUsers_eq_of_mem hnk hmem2
      rw [← getUsers_ipUsers_length, hgu]
      simpa using hlen
    · intro hth
      rw [← getUsers_ipUsers_length] at hth
      have hne : getUsers (ipUsers now logs) ip ≠ [] := by
        intro h0
        rw [h0] at hth
        simp [STUFF_THRESHOLD] at hth
      refine List.mem_map.mpr
        ⟨(ip, getUsers (ipUsers now logs) ip),
         List.mem_filter.mpr ⟨getUsers_mem hne, ?_⟩, rfl⟩
      simpa using hth
  · decide

end

end PCDT
